import Mathlib

/-!
# Singly-linked list engine (`linked_list.c`)

A shallow embedding of the list engine, its iterator and the allocation
provider it calls through `malloc_fptr` / `free_fptr`, followed by theorems
about the embedded operations.

Conventions of the embedding:

* a `struct node *` is an owned chain: `NULL`, or a cell with its payload and
  its `next` pointer.  A pointer into the chain of a list is the sub-chain it
  points at;
* an operation that mutates `*ll` returns the record as it is after the call;
* `size_t` counters are natural numbers reduced modulo `SIZE_MAX + 1` after
  every increment;
* dereferencing a null pointer is the error result `fault.null_dereference`.
-/

namespace LinkedList

/-! ## Data model -/

/-- Largest value of `size_t` on the 64-bit target; the engine's error sentinel. -/
def SIZE_MAX : Nat := 2 ^ 64 - 1

/-- Modelled from the spec: `struct node` and pointers to it (the header
`linked_list.h` is not part of the sources).  A node holds `data`, an unsigned
integer payload, and `next`, the owning link to the next node or none. -/
inductive node_ptr where
  | NULL : node_ptr
  | node (data : Nat) (next : node_ptr) : node_ptr
deriving DecidableEq

/-- Modelled from the spec: `struct linked_list` (declared in the missing
header): the record holds `head`, the owning link to the first node or none. -/
structure linked_list where
  head : node_ptr
deriving DecidableEq

/-- Modelled from the spec: `struct iterator` (declared in the missing header):
back-reference to the list, the node currently visited, its zero-based index
and a cached copy of its payload. -/
structure iterator where
  ll : linked_list
  current_node : node_ptr
  current_index : Nat
  data : Nat
deriving DecidableEq

/-- Modelled from the spec: the allocation provider behind the two registered
function slots (the registered functions themselves are supplied by the
embedding application).  `script` lists what the upcoming allocate calls
answer (`true` = storage, `false` = no storage; once it is used up every call
gets storage), `allocated` counts the blocks handed out and `released` the
blocks taken back. -/
structure allocator where
  script : List Bool
  allocated : Nat
  released : Nat
deriving DecidableEq

/-- The call `malloc_fptr(size)`: whether storage was returned, and the
provider afterwards. -/
def malloc_fptr (m : allocator) : Bool × allocator :=
  match m.script with
  | [] => (true, { m with allocated := m.allocated + 1 })
  | true :: rest => (true, { m with script := rest, allocated := m.allocated + 1 })
  | false :: rest => (false, { m with script := rest })

/-- The call `free_fptr(addr)`. -/
def free_fptr (m : allocator) : allocator :=
  { m with released := m.released + 1 }

/-- Outcome of dereferencing a null pointer. -/
inductive fault where
  | null_dereference : fault
deriving DecidableEq

/-- What a call leaves behind: the value returned, the object behind the
pointer argument after the call (`none` when there is no such object), and
the allocation provider after the call. -/
structure call (α β : Type) where
  ret : α
  obj : Option β
  mem : allocator
deriving DecidableEq

/-- Payloads of a chain, in traversal order from the given node. -/
def node_ptr.values : node_ptr → List Nat
  | .NULL => []
  | .node data next => data :: next.values

/-- Value sequence of a list: the payloads met walking from `head`. -/
def linked_list.values (ll : linked_list) : List Nat :=
  ll.head.values

/-! ## List engine -/

/-- Source `linked_list_create`. -/
def linked_list_create (m : allocator) : Option linked_list × allocator :=
  match malloc_fptr m with
  | (true, m1) => (some { head := .NULL }, m1)
  | (false, m1) => (none, m1)

/-- The `while (head != NULL)` loop of `linked_list_delete`: releases every node. -/
def linked_list_delete_loop : node_ptr → allocator → allocator
  | .NULL, m => m
  | .node _ next, m => linked_list_delete_loop next (free_fptr m)

/-- Source `linked_list_delete`. -/
def linked_list_delete (ll : Option linked_list) (m : allocator) :
    call Bool linked_list :=
  match ll with
  | none => { ret := false, obj := none, mem := m }
  | some l =>
    { ret := true, obj := none, mem := free_fptr (linked_list_delete_loop l.head m) }

/-- The counting loop of `linked_list_size`, entered with the current `head`
and `size`. -/
def linked_list_size_loop : node_ptr → Nat → Nat
  | .NULL, size => size
  | .node _ next, size => linked_list_size_loop next ((size + 1) % (SIZE_MAX + 1))

/-- Source `linked_list_size`. -/
def linked_list_size (ll : Option linked_list) : Nat :=
  match ll with
  | none => SIZE_MAX
  | some l => linked_list_size_loop l.head 0

/-- The `while (head->next != NULL)` loop of `linked_list_insert_end` followed
by `head->next = new_node`; entered at a non-null `head` whose fields are
`data` and the chain given as last argument. -/
def linked_list_insert_end_loop (new_node : node_ptr) (data : Nat) : node_ptr → node_ptr
  | .NULL => .node data new_node
  | .node data1 next1 => .node data (linked_list_insert_end_loop new_node data1 next1)

/-- Source `linked_list_insert_end`. -/
def linked_list_insert_end (ll : Option linked_list) (data : Nat) (m : allocator) :
    call Bool linked_list :=
  match ll with
  | none => { ret := false, obj := none, mem := m }
  | some l =>
    match malloc_fptr m with
    | (false, m1) => { ret := false, obj := some l, mem := m1 }
    | (true, m1) =>
      match l.head with
      | .NULL => { ret := true, obj := some { head := .node data .NULL }, mem := m1 }
      | .node d next =>
        { ret := true
          obj := some { head := linked_list_insert_end_loop (.node data .NULL) d next }
          mem := m1 }

/-- Source `linked_list_insert_front`. -/
def linked_list_insert_front (ll : Option linked_list) (data : Nat) (m : allocator) :
    call Bool linked_list :=
  match ll with
  | none => { ret := false, obj := none, mem := m }
  | some l =>
    match malloc_fptr m with
    | (false, m1) => { ret := false, obj := some l, mem := m1 }
    | (true, m1) => { ret := true, obj := some { head := .node data l.head }, mem := m1 }

/-- The `for (i = 0; i < index-1 && head != NULL; i++)` walk of
`linked_list_insert` and the code after it, entered with counter `i` at
`head`.  `none`: the walk ended with `head == NULL` (index out of bounds).
`some c`: the chain from the entry node after
`new_node->next = head->next; head->next = new_node`. -/
def linked_list_insert_loop (index data : Nat) : Nat → node_ptr → Option node_ptr
  | _, .NULL => none
  | i, .node d next =>
    if i < index - 1 then
      (linked_list_insert_loop index data ((i + 1) % (SIZE_MAX + 1)) next).map (.node d)
    else
      some (.node d (.node data next))

/-- Source `linked_list_insert`. -/
def linked_list_insert (ll : Option linked_list) (index data : Nat) (m : allocator) :
    call Bool linked_list :=
  match ll with
  | none => { ret := false, obj := none, mem := m }
  | some l =>
    match malloc_fptr m with
    | (false, m1) => { ret := false, obj := some l, mem := m1 }
    | (true, m1) =>
      if index = 0 then
        { ret := true, obj := some { head := .node data l.head }, mem := m1 }
      else
        match linked_list_insert_loop index data 0 l.head with
        | none => { ret := false, obj := some l, mem := free_fptr m1 }
        | some c => { ret := true, obj := some { head := c }, mem := m1 }

/-- The scan loop of `linked_list_find`, entered with the current `head` and
`index`. -/
def linked_list_find_loop (data : Nat) : node_ptr → Nat → Nat
  | .NULL, _ => SIZE_MAX
  | .node d next, index =>
    if d = data then index
    else linked_list_find_loop data next ((index + 1) % (SIZE_MAX + 1))

/-- Source `linked_list_find`. -/
def linked_list_find (ll : Option linked_list) (data : Nat) : Nat :=
  match ll with
  | none => SIZE_MAX
  | some l => linked_list_find_loop data l.head 0

/-- The `for (i = 0; i < index - 1 && head != NULL; i++)` walk of
`linked_list_remove` and the code after it, entered with counter `i` at
`head`.  `none`: `head == NULL || head->next == NULL` after the walk.
`some c`: the chain from the entry node after `head->next = remove_node->next`. -/
def linked_list_remove_loop (index : Nat) : Nat → node_ptr → Option node_ptr
  | _, .NULL => none
  | i, .node d next =>
    if i < index - 1 then
      (linked_list_remove_loop index ((i + 1) % (SIZE_MAX + 1)) next).map (.node d)
    else
      match next with
      | .NULL => none
      | .node _ next2 => some (.node d next2)

/-- Source `linked_list_remove`. -/
def linked_list_remove (ll : Option linked_list) (index : Nat) (m : allocator) :
    call Bool linked_list :=
  match ll with
  | none => { ret := false, obj := none, mem := m }
  | some l =>
    match l.head with
    | .NULL => { ret := false, obj := some l, mem := m }
    | .node d next =>
      if index = 0 then
        { ret := true, obj := some { head := next }, mem := free_fptr m }
      else
        match linked_list_remove_loop index 0 (.node d next) with
        | none => { ret := false, obj := some l, mem := m }
        | some c => { ret := true, obj := some { head := c }, mem := free_fptr m }

/-! ## Iterator -/

/-- The `while (head != NULL)` loop of `linked_list_create_iterator`, entered
with the current `head` and `count`; returns both as the loop leaves them. -/
def linked_list_create_iterator_loop (index : Nat) : node_ptr → Nat → node_ptr × Nat
  | .NULL, count => (.NULL, count)
  | .node d next, count =>
    if count = index then (.node d next, count)
    else linked_list_create_iterator_loop index next ((count + 1) % (SIZE_MAX + 1))

/-- Source `linked_list_create_iterator`.  The list is not modified; the
result is the iterator (or `NULL`) and the provider after the call, or the
fault raised by `head->data` when `head` is null. -/
def linked_list_create_iterator (ll : Option linked_list) (index : Nat) (m : allocator) :
    Except fault (Option iterator × allocator) :=
  match ll with
  | none => .ok (none, m)
  | some l =>
    match l.head with
    | .NULL => .ok (none, m)
    | .node d0 next0 =>
      match linked_list_create_iterator_loop index (.node d0 next0) 0 with
      | (head, count) =>
        if count = index then
          match malloc_fptr m with
          | (false, m1) => .ok (none, m1)
          | (true, m1) =>
            match head with
            | .NULL => .error fault.null_dereference
            | .node d next =>
              .ok (some { ll := l, current_node := .node d next,
                          current_index := count, data := d }, m1)
        else .ok (none, m)

/-- Source `linked_list_delete_iterator`. -/
def linked_list_delete_iterator (iter : Option iterator) (m : allocator) :
    call Bool iterator :=
  match iter with
  | none => { ret := false, obj := none, mem := m }
  | some _ => { ret := true, obj := none, mem := free_fptr m }

/-- Source `linked_list_iterate`: the flag returned and the iterator after the
call. -/
def linked_list_iterate (iter : Option iterator) : Bool × Option iterator :=
  match iter with
  | none => (false, none)
  | some it =>
    match it.current_node with
    | .NULL => (false, some it)
    | .node _ .NULL => (false, some it)
    | .node _ (.node d1 next1) =>
      (true, some { it with current_node := .node d1 next1,
                            current_index := (it.current_index + 1) % (SIZE_MAX + 1),
                            data := d1 })

/-! ## Allocator binding -/

/-- The two file-scope function pointers of `linked_list.c` that hold the
registered allocate and release functions: each slot is a function reference
(named by a number) or null. -/
structure allocator_binding where
  malloc_slot : Option Nat
  free_slot : Option Nat
deriving DecidableEq

/-- Source `linked_list_register_malloc`: the flag returned and the slots after
the call. -/
def linked_list_register_malloc (b : allocator_binding) (malloc : Option Nat) :
    Bool × allocator_binding :=
  match malloc with
  | none => (false, b)
  | some f => (true, { b with malloc_slot := some f })

/-- Source `linked_list_register_free`: the flag returned and the slots after
the call. -/
def linked_list_register_free (b : allocator_binding) (free : Option Nat) :
    Bool × allocator_binding :=
  match free with
  | none => (false, b)
  | some f => (true, { b with free_slot := some f })

/-! ## Call sequences used to state properties of repeated calls -/

/-- Repeated advance: `k` consecutive calls of `linked_list_iterate` on the
same iterator; the flags returned, oldest first, and the iterator after the
last call. -/
def iterate_calls : Nat → Option iterator → List Bool × Option iterator
  | 0, iter => ([], iter)
  | k + 1, iter =>
    ((linked_list_iterate iter).1 :: (iterate_calls k (linked_list_iterate iter).2).1,
      (iterate_calls k (linked_list_iterate iter).2).2)

/-- One mutating call on a list, with its arguments. -/
inductive mutation where
  | insert_end (data : Nat) : mutation
  | insert_front (data : Nat) : mutation
  | insert (index data : Nat) : mutation
  | remove (index : Nat) : mutation
deriving DecidableEq

/-- Performs the call named by a `mutation`. -/
def mutation.run (c : mutation) (ll : Option linked_list) (m : allocator) :
    call Bool linked_list :=
  match c with
  | .insert_end data => linked_list_insert_end ll data m
  | .insert_front data => linked_list_insert_front ll data m
  | .insert index data => linked_list_insert ll index data m
  | .remove index => linked_list_remove ll index m

/-- Whether the call is one of the three insert operations. -/
def mutation.is_insert : mutation → Bool
  | .remove _ => false
  | _ => true

/-- A caller's running record: the list, the provider, and how many insert
calls and how many remove calls have returned `true` so far. -/
structure session where
  ll : Option linked_list
  mem : allocator
  inserted : Nat
  removed : Nat
deriving DecidableEq

/-- Performs one call and records its return value. -/
def session.step (s : session) (c : mutation) : session :=
  match c.run s.ll s.mem with
  | { ret := true, obj := o, mem := m1 } =>
    if c.is_insert then { ll := o, mem := m1, inserted := s.inserted + 1, removed := s.removed }
    else { ll := o, mem := m1, inserted := s.inserted, removed := s.removed + 1 }
  | { ret := false, obj := o, mem := m1 } =>
    { ll := o, mem := m1, inserted := s.inserted, removed := s.removed }

/-- Performs the calls in order. -/
def session.run (s : session) (cs : List mutation) : session :=
  cs.foldl session.step s

/-- An iterator agrees with the value sequence `xs` of its unmutated list: the
stored index is a position of `xs`, the current node is the node at that
position (what follows it is the rest of `xs`), and the cached value is the
value at that position. -/
def iterator.consistent (it : iterator) (xs : List Nat) : Prop :=
  it.current_index < xs.length ∧
    it.current_node.values = xs.drop it.current_index ∧
    xs[it.current_index]? = some it.data

instance iterator.decidable_consistent (it : iterator) (xs : List Nat) :
    Decidable (it.consistent xs) := by
  unfold iterator.consistent
  infer_instance

/-- The node reached from a node by following `next` `k` times (`NULL` once
the walk has left the chain). -/
def node_ptr.follow : Nat → node_ptr → node_ptr
  | 0, c => c
  | _ + 1, .NULL => .NULL
  | k + 1, .node _ next => node_ptr.follow k next

/-- A caller's traversal: read the iterator's index and cached value, call
`linked_list_iterate`, and go on for as long as it returns `true`.  `fuel`
bounds the number of readings; no iterator gives no reading. -/
def iterator_traverse : Nat → Option iterator → List (Nat × Nat)
  | 0, _ => []
  | _ + 1, none => []
  | fuel + 1, some it =>
    (it.current_index, it.data) ::
      (if (linked_list_iterate (some it)).1 then
        iterator_traverse fuel (linked_list_iterate (some it)).2
      else [])

/-! ## Auxiliary lemmas -/

theorem mod_size_of_le {n : Nat} (h : n ≤ SIZE_MAX) : n % (SIZE_MAX + 1) = n :=
  Nat.mod_eq_of_lt (Nat.lt_succ_of_le h)

@[simp] theorem node_ptr.values_NULL : node_ptr.NULL.values = [] := rfl

@[simp] theorem node_ptr.values_node (d : Nat) (c : node_ptr) :
    (node_ptr.node d c).values = d :: c.values := rfl

theorem node_ptr.values_injective : ∀ a b : node_ptr, a.values = b.values → a = b
  | .NULL, .NULL, _ => rfl
  | .NULL, .node _ _, h => by simp at h
  | .node _ _, .NULL, h => by simp at h
  | .node d c, .node e c2, h => by
    simp only [node_ptr.values_node, List.cons.injEq] at h
    rw [h.1, node_ptr.values_injective c c2 h.2]

theorem linked_list_size_loop_eq (c : node_ptr) :
    ∀ size, size + c.values.length ≤ SIZE_MAX →
      linked_list_size_loop c size = size + c.values.length := by
  induction c with
  | NULL => intro size _; simp [linked_list_size_loop]
  | node d next ih =>
    intro size h
    simp only [node_ptr.values_node, List.length_cons] at h ⊢
    have h1 : size + 1 ≤ SIZE_MAX := by omega
    rw [linked_list_size_loop, mod_size_of_le h1, ih (size + 1) (by omega)]
    omega

theorem linked_list_size_eq (l : linked_list) (h : l.values.length ≤ SIZE_MAX) :
    linked_list_size (some l) = l.values.length := by
  have := linked_list_size_loop_eq l.head 0 (by simpa [linked_list.values] using h)
  simpa [linked_list_size, linked_list.values] using this

theorem linked_list_insert_loop_some (index data : Nat) (hidx : index ≤ SIZE_MAX)
    (c : node_ptr) :
    ∀ i k : Nat, i + k + 1 = index → k < c.values.length →
      ∃ c2, linked_list_insert_loop index data i c = some c2 ∧
        c2.values = c.values.take (k + 1) ++ data :: c.values.drop (k + 1) := by
  induction c with
  | NULL => intro i k _ hk; simp at hk
  | node d next ih =>
    intro i k hik hk
    cases k with
    | zero =>
      have hlt : ¬ i < index - 1 := by omega
      exact ⟨.node d (.node data next), by simp [linked_list_insert_loop, hlt], by simp⟩
    | succ k =>
      have hlt : i < index - 1 := by omega
      have hmod : (i + 1) % (SIZE_MAX + 1) = i + 1 := mod_size_of_le (by omega)
      simp only [node_ptr.values_node, List.length_cons] at hk
      obtain ⟨c2, hc2, hv⟩ := ih (i + 1) k (by omega) (by omega)
      refine ⟨.node d c2, by simp [linked_list_insert_loop, hlt, hmod, hc2], ?_⟩
      simp [hv]

theorem linked_list_insert_loop_none (index data : Nat) (hidx : index ≤ SIZE_MAX)
    (c : node_ptr) :
    ∀ i k : Nat, i + k + 1 = index → c.values.length ≤ k →
      linked_list_insert_loop index data i c = none := by
  induction c with
  | NULL => intro i k _ _; simp [linked_list_insert_loop]
  | node d next ih =>
    intro i k hik hk
    simp only [node_ptr.values_node, List.length_cons] at hk
    have hlt : i < index - 1 := by omega
    have hmod : (i + 1) % (SIZE_MAX + 1) = i + 1 := mod_size_of_le (by omega)
    simp [linked_list_insert_loop, hlt, hmod, ih (i + 1) (k - 1) (by omega) (by omega)]

theorem linked_list_remove_loop_some (index : Nat) (hidx : index ≤ SIZE_MAX)
    (c : node_ptr) :
    ∀ i k : Nat, i + k + 1 = index → k + 1 < c.values.length →
      ∃ c2, linked_list_remove_loop index i c = some c2 ∧
        c2.values = c.values.eraseIdx (k + 1) := by
  induction c with
  | NULL => intro i k _ hk; simp at hk
  | node d next ih =>
    intro i k hik hk
    simp only [node_ptr.values_node, List.length_cons] at hk
    cases k with
    | zero =>
      have hlt : ¬ i < index - 1 := by omega
      cases next with
      | NULL => simp at hk
      | node e next2 =>
        exact ⟨.node d next2, by simp [linked_list_remove_loop, hlt], by simp⟩
    | succ k =>
      have hlt : i < index - 1 := by omega
      have hmod : (i + 1) % (SIZE_MAX + 1) = i + 1 := mod_size_of_le (by omega)
      obtain ⟨c2, hc2, hv⟩ := ih (i + 1) k (by omega) (by omega)
      refine ⟨.node d c2, by simp [linked_list_remove_loop, hlt, hmod, hc2], ?_⟩
      simp [hv]

theorem linked_list_remove_loop_none (index : Nat) (hidx : index ≤ SIZE_MAX)
    (c : node_ptr) :
    ∀ i k : Nat, i + k + 1 = index → c.values.length ≤ k + 1 →
      linked_list_remove_loop index i c = none := by
  induction c with
  | NULL => intro i k _ _; simp [linked_list_remove_loop]
  | node d next ih =>
    intro i k hik hk
    simp only [node_ptr.values_node, List.length_cons] at hk
    cases k with
    | zero =>
      have hlt : ¬ i < index - 1 := by omega
      cases next with
      | NULL => simp [linked_list_remove_loop, hlt]
      | node e next2 => simp at hk
    | succ k =>
      have hlt : i < index - 1 := by omega
      have hmod : (i + 1) % (SIZE_MAX + 1) = i + 1 := mod_size_of_le (by omega)
      simp [linked_list_remove_loop, hlt, hmod, ih (i + 1) k (by omega) (by omega)]

theorem linked_list_find_loop_first (data : Nat) (c : node_ptr) :
    ∀ index : Nat, index + c.values.length ≤ SIZE_MAX + 1 → data ∈ c.values →
      ∃ j, linked_list_find_loop data c index = index + j ∧
        c.values[j]? = some data ∧ ∀ j2, j2 < j → c.values[j2]? ≠ some data := by
  induction c with
  | NULL => intro index _ hmem; simp at hmem
  | node d next ih =>
    intro index hlen hmem
    simp only [node_ptr.values_node, List.length_cons] at hlen
    by_cases hd : d = data
    · exact ⟨0, by simp [linked_list_find_loop, hd], by simp [hd], by simp⟩
    · have hmem2 : data ∈ next.values := by
        simp only [node_ptr.values_node, List.mem_cons] at hmem
        rcases hmem with h | h
        · exact absurd h.symm hd
        · exact h
      have hpos : 0 < next.values.length := List.length_pos_of_mem hmem2
      have hmod : (index + 1) % (SIZE_MAX + 1) = index + 1 := mod_size_of_le (by omega)
      obtain ⟨j, hj, hat, hbefore⟩ := ih (index + 1) (by omega) hmem2
      refine ⟨j + 1, ?_, by simpa using hat, ?_⟩
      · simp only [linked_list_find_loop, hd, if_false, hmod, hj]
        omega
      · intro j2 hj2
        cases j2 with
        | zero => simpa using hd
        | succ j3 => simpa using hbefore j3 (by omega)

theorem linked_list_insert_end_loop_values (new_node : node_ptr) (c : node_ptr) :
    ∀ d : Nat, (linked_list_insert_end_loop new_node d c).values =
      d :: c.values ++ new_node.values := by
  induction c with
  | NULL => intro d; simp [linked_list_insert_end_loop]
  | node e next ih => intro d; simp [linked_list_insert_end_loop, ih e]

theorem linked_list_insert_end_values (l : linked_list) (data : Nat) (m : allocator)
    (halloc : (malloc_fptr m).1 = true) :
    ∃ c, linked_list_insert_end (some l) data m =
        { ret := true, obj := some { head := c }, mem := (malloc_fptr m).2 } ∧
      c.values = l.values ++ [data] := by
  rcases hm : malloc_fptr m with ⟨b, m1⟩
  rw [hm] at halloc
  simp only at halloc
  subst halloc
  obtain ⟨head⟩ := l
  cases head with
  | NULL => exact ⟨.node data .NULL, by simp [linked_list_insert_end, hm], by simp [linked_list.values]⟩
  | node d next =>
    exact ⟨linked_list_insert_end_loop (.node data .NULL) d next,
      by simp [linked_list_insert_end, hm],
      by simp [linked_list.values, linked_list_insert_end_loop_values]⟩

theorem linked_list_create_iterator_loop_reaches (index : Nat) (hidx : index ≤ SIZE_MAX)
    (c : node_ptr) :
    ∀ count k : Nat, count + k = index → k < c.values.length →
      ∃ d next, linked_list_create_iterator_loop index c count = (.node d next, index) ∧
        d :: next.values = c.values.drop k := by
  induction c with
  | NULL => intro count k _ hk; simp at hk
  | node e c2 ih =>
    intro count k hck hk
    simp only [node_ptr.values_node, List.length_cons] at hk
    cases k with
    | zero =>
      have hc : count = index := by omega
      exact ⟨e, c2, by simp [linked_list_create_iterator_loop, hc], by simp⟩
    | succ k =>
      have hc : count ≠ index := by omega
      have hmod : (count + 1) % (SIZE_MAX + 1) = count + 1 := mod_size_of_le (by omega)
      obtain ⟨d, next, hloop, hv⟩ := ih (count + 1) k (by omega) (by omega)
      exact ⟨d, next, by simp [linked_list_create_iterator_loop, hc, hmod, hloop],
        by simpa using hv⟩

theorem linked_list_create_iterator_ok (l : linked_list) (index : Nat) (m : allocator)
    (hidx : index ≤ SIZE_MAX) (hlt : index < l.values.length)
    (halloc : (malloc_fptr m).1 = true) :
    ∃ it, linked_list_create_iterator (some l) index m = .ok (some it, (malloc_fptr m).2) ∧
      it.ll = l ∧ it.current_index = index ∧ it.consistent l.values := by
  rcases hm : malloc_fptr m with ⟨b, m1⟩
  rw [hm] at halloc
  simp only at halloc
  subst halloc
  obtain ⟨head⟩ := l
  cases head with
  | NULL => simp [linked_list.values] at hlt
  | node d0 next0 =>
    obtain ⟨d, next, hloop, hv⟩ :=
      linked_list_create_iterator_loop_reaches index hidx (.node d0 next0) 0 index
        (by omega) (by simpa [linked_list.values] using hlt)
    refine ⟨{ ll := ⟨.node d0 next0⟩, current_node := .node d next, current_index := index,
              data := d }, ?_, rfl, rfl, ?_⟩
    · simp [linked_list_create_iterator, hloop, hm]
    · refine ⟨hlt, by simpa [linked_list.values] using hv, ?_⟩
      have h1 : (linked_list.values ⟨.node d0 next0⟩).drop index = d :: next.values := by
        simpa [linked_list.values] using hv.symm
      have h2 := List.getElem?_drop (linked_list.values ⟨.node d0 next0⟩) index 0
      rw [h1] at h2
      simpa using h2.symm

theorem linked_list_iterate_consistent (it : iterator) (xs : List Nat)
    (hlen : xs.length ≤ SIZE_MAX) (hc : it.consistent xs) :
    (it.current_index + 1 < xs.length →
      ∃ it2, linked_list_iterate (some it) = (true, some it2) ∧ it2.ll = it.ll ∧
        it2.current_index = it.current_index + 1 ∧ it2.consistent xs) ∧
    (¬ it.current_index + 1 < xs.length →
      linked_list_iterate (some it) = (false, some it)) := by
  obtain ⟨hlt, hnode, hdata⟩ := hc
  obtain ⟨ll, cur, idx, dat⟩ := it
  simp only at hlt hnode hdata ⊢
  have hdl : (xs.drop idx).length = xs.length - idx := List.length_drop idx xs
  cases cur with
  | NULL =>
    rw [← hnode] at hdl
    simp at hdl
    omega
  | node d c =>
    cases c with
    | NULL =>
      rw [← hnode] at hdl
      simp at hdl
      constructor
      · intro h; omega
      · intro _; simp [linked_list_iterate]
    | node d1 next1 =>
      rw [← hnode] at hdl
      simp at hdl
      have hmod : (idx + 1) % (SIZE_MAX + 1) = idx + 1 := mod_size_of_le (by omega)
      have hdrop : xs.drop (idx + 1) = d1 :: next1.values := by
        have h := congrArg List.tail hnode
        simpa [List.tail_drop] using h.symm
      constructor
      · intro _
        refine ⟨{ ll := ll, current_node := .node d1 next1, current_index := idx + 1,
                  data := d1 }, by simp [linked_list_iterate, hmod], rfl, rfl, ?_⟩
        refine ⟨by simp only; omega, by simpa using hdrop.symm, ?_⟩
        have h2 := List.getElem?_drop xs (idx + 1) 0
        rw [hdrop] at h2
        simpa using h2.symm
      · intro h; omega

theorem iterate_calls_consistent (xs : List Nat) (hlen : xs.length ≤ SIZE_MAX) :
    ∀ (k : Nat) (it : iterator), it.consistent xs → it.current_index + k < xs.length →
      (iterate_calls k (some it)).1 = List.replicate k true ∧
        ∃ it2, (iterate_calls k (some it)).2 = some it2 ∧ it2.ll = it.ll ∧
          it2.current_index = it.current_index + k ∧ it2.consistent xs := by
  intro k
  induction k with
  | zero => intro it hc _; exact ⟨rfl, it, rfl, rfl, rfl, hc⟩
  | succ k ih =>
    intro it hc hk
    obtain ⟨it1, h1, hll1, hidx1, hc1⟩ :=
      (linked_list_iterate_consistent it xs hlen hc).1 (by omega)
    obtain ⟨hflags, it2, h2, hll2, hidx2, hc2⟩ := ih it1 hc1 (by omega)
    refine ⟨?_, it2, ?_, ?_, ?_, hc2⟩
    · simp [iterate_calls, h1, hflags, List.replicate_succ]
    · simp [iterate_calls, h1, h2]
    · rw [hll2, hll1]
    · omega

theorem linked_list_insert_loop_length (index data : Nat) (c : node_ptr) :
    ∀ (i : Nat) (c2 : node_ptr), linked_list_insert_loop index data i c = some c2 →
      c2.values.length = c.values.length + 1 := by
  induction c with
  | NULL => intro i c2 h; simp [linked_list_insert_loop] at h
  | node d next ih =>
    intro i c2 h
    by_cases hlt : i < index - 1
    · simp only [linked_list_insert_loop, hlt, if_true, Option.map_eq_some'] at h
      obtain ⟨c3, hc3, hc2⟩ := h
      subst hc2
      simp [ih _ c3 hc3]
    · simp only [linked_list_insert_loop, hlt, if_false, Option.some.injEq] at h
      subst h
      simp

theorem linked_list_remove_loop_length (index : Nat) (c : node_ptr) :
    ∀ (i : Nat) (c2 : node_ptr), linked_list_remove_loop index i c = some c2 →
      c2.values.length + 1 = c.values.length := by
  induction c with
  | NULL => intro i c2 h; simp [linked_list_remove_loop] at h
  | node d next ih =>
    intro i c2 h
    by_cases hlt : i < index - 1
    · simp only [linked_list_remove_loop, hlt, if_true, Option.map_eq_some'] at h
      obtain ⟨c3, hc3, hc2⟩ := h
      subst hc2
      simp [ih _ c3 hc3]
    · cases next with
      | NULL => simp [linked_list_remove_loop, hlt] at h
      | node e next2 =>
        simp only [linked_list_remove_loop, hlt, if_false, Option.some.injEq] at h
        subst h
        simp

theorem mutation.run_effect (c : mutation) (l : linked_list) (m : allocator) :
    ∃ l2, (c.run (some l) m).obj = some l2 ∧
      ((c.run (some l) m).ret = false → l2 = l) ∧
      ((c.run (some l) m).ret = true → c.is_insert = true →
        l2.values.length = l.values.length + 1) ∧
      ((c.run (some l) m).ret = true → c.is_insert = false →
        l2.values.length + 1 = l.values.length) := by
  obtain ⟨head⟩ := l
  rcases hm : malloc_fptr m with ⟨b, m1⟩
  cases c with
  | insert_end data =>
    cases b with
    | false => exact ⟨⟨head⟩, by simp [mutation.run, linked_list_insert_end, hm]⟩
    | true =>
      obtain ⟨c2, hrun, hv⟩ :=
        linked_list_insert_end_values ⟨head⟩ data m (by rw [hm])
      exact ⟨⟨c2⟩, by simp [mutation.run, hrun, linked_list.values, hv, mutation.is_insert]⟩
  | insert_front data =>
    cases b with
    | false => exact ⟨⟨head⟩, by simp [mutation.run, linked_list_insert_front, hm]⟩
    | true =>
      exact ⟨⟨.node data head⟩,
        by simp [mutation.run, linked_list_insert_front, hm, linked_list.values,
          mutation.is_insert]⟩
  | insert index data =>
    cases b with
    | false => exact ⟨⟨head⟩, by simp [mutation.run, linked_list_insert, hm]⟩
    | true =>
      by_cases h0 : index = 0
      · exact ⟨⟨.node data head⟩,
          by simp [mutation.run, linked_list_insert, hm, h0, linked_list.values,
            mutation.is_insert]⟩
      · cases hloop : linked_list_insert_loop index data 0 head with
        | none => exact ⟨⟨head⟩, by simp [mutation.run, linked_list_insert, hm, h0, hloop]⟩
        | some c2 =>
          have hl := linked_list_insert_loop_length index data head 0 c2 hloop
          exact ⟨⟨c2⟩,
            by simp [mutation.run, linked_list_insert, hm, h0, hloop, linked_list.values, hl,
              mutation.is_insert]⟩
  | remove index =>
    cases head with
    | NULL => exact ⟨⟨.NULL⟩, by simp [mutation.run, linked_list_remove]⟩
    | node d next =>
      by_cases h0 : index = 0
      · exact ⟨⟨next⟩,
          by simp [mutation.run, linked_list_remove, h0, linked_list.values, mutation.is_insert]⟩
      · cases hloop : linked_list_remove_loop index 0 (.node d next) with
        | none => exact ⟨⟨.node d next⟩, by simp [mutation.run, linked_list_remove, h0, hloop]⟩
        | some c2 =>
          have hl := linked_list_remove_loop_length index (.node d next) 0 c2 hloop
          simp only [node_ptr.values_node, List.length_cons] at hl
          exact ⟨⟨c2⟩,
            by simp [mutation.run, linked_list_remove, h0, hloop, linked_list.values,
              mutation.is_insert, hl]⟩

theorem session.step_counts (s : session) (c : mutation) (l : linked_list)
    (hll : s.ll = some l) (hinv : l.values.length + s.removed = s.inserted) :
    ∃ l2, (s.step c).ll = some l2 ∧
      l2.values.length + (s.step c).removed = (s.step c).inserted ∧
      (s.step c).inserted ≤ s.inserted + 1 := by
  obtain ⟨l2, hobj, hfalse, hins, hrem⟩ := mutation.run_effect c l s.mem
  rw [← hll] at hobj hfalse hins hrem
  rcases hrun : c.run s.ll s.mem with ⟨r, o, m1⟩
  rw [hrun] at hobj hfalse hins hrem
  simp only at hobj hfalse hins hrem
  subst hobj
  cases r with
  | false =>
    have := hfalse rfl
    subst this
    exact ⟨l2, by simp [session.step, hrun], by simp [session.step, hrun, hinv],
      by simp [session.step, hrun]⟩
  | true =>
    cases hi : c.is_insert with
    | true =>
      have := hins rfl hi
      exact ⟨l2, by simp [session.step, hrun, hi], by simp [session.step, hrun, hi]; omega,
        by simp [session.step, hrun, hi]⟩
    | false =>
      have := hrem rfl hi
      exact ⟨l2, by simp [session.step, hrun, hi], by simp [session.step, hrun, hi]; omega,
        by simp [session.step, hrun, hi]⟩

theorem session.run_counts (cs : List mutation) :
    ∀ (s : session) (l : linked_list), s.ll = some l →
      l.values.length + s.removed = s.inserted →
      ∃ l2, (s.run cs).ll = some l2 ∧
        l2.values.length + (s.run cs).removed = (s.run cs).inserted ∧
        (s.run cs).inserted ≤ s.inserted + cs.length := by
  induction cs with
  | nil =>
    intro s l hll hinv
    exact ⟨l, by simpa [session.run] using hll, by simpa [session.run] using hinv,
      by simp [session.run]⟩
  | cons c cs ih =>
    intro s l hll hinv
    obtain ⟨l1, hll1, hinv1, hle1⟩ := session.step_counts s c l hll hinv
    obtain ⟨l2, hll2, hinv2, hle2⟩ := ih (s.step c) l1 hll1 hinv1
    have hrun : s.run (c :: cs) = (s.step c).run cs := by simp [session.run]
    rw [hrun]
    exact ⟨l2, hll2, hinv2, by simp only [List.length_cons]; omega⟩

theorem linked_list_create_iterator_loop_off_end (index : Nat) (hidx : index ≤ SIZE_MAX)
    (c : node_ptr) :
    ∀ count k : Nat, count + k = index → c.values.length ≤ k →
      linked_list_create_iterator_loop index c count = (.NULL, count + c.values.length) := by
  induction c with
  | NULL => intro count k _ _; simp [linked_list_create_iterator_loop]
  | node e c2 ih =>
    intro count k hck hk
    simp only [node_ptr.values_node, List.length_cons] at hk ⊢
    have hc : count ≠ index := by omega
    have hmod : (count + 1) % (SIZE_MAX + 1) = count + 1 := mod_size_of_le (by omega)
    rw [linked_list_create_iterator_loop, if_neg hc, hmod, ih (count + 1) (k - 1) (by omega)
      (by omega)]
    congr 1
    omega

theorem linked_list_create_iterator_beyond_size (l : linked_list) (index : Nat)
    (m : allocator) (hidx : index ≤ SIZE_MAX) (hgt : l.values.length < index) :
    linked_list_create_iterator (some l) index m = .ok (none, m) := by
  obtain ⟨head⟩ := l
  cases head with
  | NULL => rfl
  | node d0 next0 =>
    have hloop :=
      linked_list_create_iterator_loop_off_end index hidx (.node d0 next0) 0 index (by omega)
        (by simp only [linked_list.values] at hgt; omega)
    have hne : ¬ (0 + (node_ptr.node d0 next0).values.length = index) := by
      simp only [linked_list.values] at hgt
      omega
    simp only [linked_list_create_iterator, hloop, if_neg hne]

theorem linked_list_create_iterator_at_size (l : linked_list) (m : allocator)
    (hlen : l.values.length ≤ SIZE_MAX) (hpos : 0 < l.values.length)
    (halloc : (malloc_fptr m).1 = true) :
    linked_list_create_iterator (some l) l.values.length m =
      .error fault.null_dereference := by
  rcases hm : malloc_fptr m with ⟨b, m1⟩
  rw [hm] at halloc
  simp only at halloc
  subst halloc
  obtain ⟨head⟩ := l
  cases head with
  | NULL => simp [linked_list.values] at hpos
  | node d0 next0 =>
    have hloop :=
      linked_list_create_iterator_loop_off_end (linked_list.values ⟨.node d0 next0⟩).length
        hlen (.node d0 next0) 0 (linked_list.values ⟨.node d0 next0⟩).length (by omega)
        (by simp [linked_list.values])
    simp only [linked_list.values, Nat.zero_add] at hloop
    simp only [linked_list_create_iterator, linked_list.values, hloop, if_true, hm]

theorem linked_list_find_loop_absent (data : Nat) (c : node_ptr) :
    ∀ index : Nat, data ∉ c.values → linked_list_find_loop data c index = SIZE_MAX := by
  induction c with
  | NULL => intro index _; rfl
  | node d next ih =>
    intro index hmem
    simp only [node_ptr.values_node, List.mem_cons, not_or] at hmem
    have hd : ¬ d = data := fun h => hmem.1 h.symm
    simp only [linked_list_find_loop, hd, if_false]
    exact ih _ hmem.2

theorem node_ptr.follow_values : ∀ (k : Nat) (c : node_ptr),
    (c.follow k).values = c.values.drop k
  | 0, c => by simp [node_ptr.follow]
  | _ + 1, .NULL => by simp [node_ptr.follow]
  | k + 1, .node _ next => by simp [node_ptr.follow, node_ptr.follow_values k next]

theorem eraseIdx_take_cons_drop (xs : List Nat) :
    ∀ (i v : Nat), i ≤ xs.length → (xs.take i ++ v :: xs.drop i).eraseIdx i = xs := by
  induction xs with
  | nil => intro i v hi; simp at hi; subst hi; simp
  | cons x xs ih =>
    intro i v hi
    cases i with
    | zero => simp
    | succ i => simp [ih i v (by simpa using hi)]

theorem linked_list_insert_ok (l : linked_list) (index data : Nat) (m : allocator)
    (hidx : index ≤ SIZE_MAX) (hle : index ≤ l.values.length)
    (halloc : (malloc_fptr m).1 = true) :
    ∃ c2, linked_list_insert (some l) index data m =
        { ret := true, obj := some { head := c2 }, mem := (malloc_fptr m).2 } ∧
      c2.values = l.values.take index ++ data :: l.values.drop index := by
  rcases hm : malloc_fptr m with ⟨b, m1⟩
  rw [hm] at halloc
  simp only at halloc
  subst halloc
  by_cases h0 : index = 0
  · subst h0
    exact ⟨.node data l.head, by simp [linked_list_insert, hm], by simp [linked_list.values]⟩
  · obtain ⟨c2, hc2, hv⟩ :=
      linked_list_insert_loop_some index data hidx l.head 0 (index - 1) (by omega)
        (by simp only [linked_list.values] at hle; omega)
    have hk : index - 1 + 1 = index := by omega
    rw [hk] at hv
    exact ⟨c2, by simp [linked_list_insert, hm, h0, hc2], by simpa [linked_list.values] using hv⟩

theorem linked_list_remove_ok (l : linked_list) (index : Nat) (m : allocator)
    (hidx : index ≤ SIZE_MAX) (hlt : index < l.values.length) :
    ∃ c2, linked_list_remove (some l) index m =
        { ret := true, obj := some { head := c2 }, mem := free_fptr m } ∧
      c2.values = l.values.eraseIdx index := by
  obtain ⟨head⟩ := l
  cases head with
  | NULL => simp [linked_list.values] at hlt
  | node d next =>
    by_cases h0 : index = 0
    · subst h0
      exact ⟨next, by simp [linked_list_remove], by simp [linked_list.values]⟩
    · obtain ⟨c2, hc2, hv⟩ :=
        linked_list_remove_loop_some index hidx (.node d next) 0 (index - 1) (by omega)
          (by simp only [linked_list.values] at hlt; omega)
      have hk : index - 1 + 1 = index := by omega
      rw [hk] at hv
      exact ⟨c2, by simp [linked_list_remove, h0, hc2], by simpa [linked_list.values] using hv⟩

theorem session.step_inserted_le (s : session) (c : mutation) :
    (s.step c).inserted ≤ s.inserted + 1 := by
  rcases hrun : c.run s.ll s.mem with ⟨r, o, m1⟩
  cases r <;> cases hi : c.is_insert <;> simp [session.step, hrun, hi]

theorem session.run_inserted_le (cs : List mutation) :
    ∀ s : session, (s.run cs).inserted ≤ s.inserted + cs.length := by
  induction cs with
  | nil => intro s; simp [session.run]
  | cons c cs ih =>
    intro s
    have h1 := session.step_inserted_le s c
    have h2 := ih (s.step c)
    have hrun : s.run (c :: cs) = (s.step c).run cs := by simp [session.run]
    rw [hrun]
    simp only [List.length_cons]
    omega

theorem session.run_insert_front (vs : List Nat) :
    ∀ (s : session) (l : linked_list), s.ll = some l →
      (s.run (vs.map mutation.insert_front)).inserted = s.inserted + vs.length →
      ∃ l2, (s.run (vs.map mutation.insert_front)).ll = some l2 ∧
        l2.values = vs.reverse ++ l.values := by
  induction vs with
  | nil => intro s l hll _; exact ⟨l, by simpa [session.run] using hll, by simp⟩
  | cons v vs ih =>
    intro s l hll hins
    have hrun : s.run ((v :: vs).map mutation.insert_front) =
        (s.step (.insert_front v)).run (vs.map mutation.insert_front) := by
      simp [session.run]
    rw [hrun] at hins ⊢
    have hle := session.run_inserted_le (vs.map mutation.insert_front)
      (s.step (.insert_front v))
    simp only [List.length_map, List.length_cons] at hle hins
    rcases hm : malloc_fptr s.mem with ⟨b, m1⟩
    cases b with
    | false =>
      have h1 : (s.step (.insert_front v)).inserted = s.inserted := by
        simp [session.step, mutation.run, hll, linked_list_insert_front, hm]
      omega
    | true =>
      have h1 : (s.step (.insert_front v)).inserted = s.inserted + 1 := by
        simp [session.step, mutation.run, hll, linked_list_insert_front, hm,
          mutation.is_insert]
      have h2 : (s.step (.insert_front v)).ll = some ⟨.node v l.head⟩ := by
        simp [session.step, mutation.run, hll, linked_list_insert_front, hm,
          mutation.is_insert]
      obtain ⟨l2, hl2, hv⟩ := ih (s.step (.insert_front v)) ⟨.node v l.head⟩ h2 (by omega)
      exact ⟨l2, hl2, by rw [hv]; simp [linked_list.values]⟩

theorem linked_list_create_iterator_alloc_fail (ll : Option linked_list) (index : Nat)
    (m : allocator) (hfail : (malloc_fptr m).1 = false) :
    ∃ m2, linked_list_create_iterator ll index m = .ok (none, m2) := by
  rcases hm : malloc_fptr m with ⟨b, m1⟩
  rw [hm] at hfail
  simp only at hfail
  subst hfail
  cases ll with
  | none => exact ⟨m, rfl⟩
  | some l =>
    obtain ⟨head⟩ := l
    cases head with
    | NULL => exact ⟨m, rfl⟩
    | node d0 next0 =>
      rcases hloop : linked_list_create_iterator_loop index (.node d0 next0) 0 with ⟨h, count⟩
      by_cases hc : count = index
      · exact ⟨m1, by simp [linked_list_create_iterator, hloop, hc, hm]⟩
      · exact ⟨m, by simp [linked_list_create_iterator, hloop, hc]⟩

theorem linked_list_create_iterator_some (l : linked_list) (index : Nat) (m m1 : allocator)
    (it : iterator) (hlen : l.values.length ≤ SIZE_MAX) (hidx : index ≤ SIZE_MAX)
    (hcreate : linked_list_create_iterator (some l) index m = .ok (some it, m1)) :
    it.ll = l ∧ it.current_index = index ∧ it.consistent l.values := by
  cases hb : (malloc_fptr m).1 with
  | false =>
    obtain ⟨m2, h2⟩ := linked_list_create_iterator_alloc_fail (some l) index m hb
    rw [h2] at hcreate
    simp at hcreate
  | true =>
    rcases Nat.lt_trichotomy index l.values.length with hlt | heq | hgt
    · obtain ⟨it2, h2, hll, hindex, hc⟩ :=
        linked_list_create_iterator_ok l index m hidx hlt hb
      rw [h2] at hcreate
      simp only [Except.ok.injEq, Prod.mk.injEq, Option.some.injEq] at hcreate
      rw [← hcreate.1]
      exact ⟨hll, hindex, hc⟩
    · rcases Nat.eq_zero_or_pos l.values.length with h0 | hpos
      · obtain ⟨head⟩ := l
        cases head with
        | NULL => simp [linked_list_create_iterator] at hcreate
        | node d next => simp [linked_list.values] at h0
      · have h2 := linked_list_create_iterator_at_size l m hlen hpos hb
        rw [← heq, hcreate] at h2
        simp at h2
    · have h2 := linked_list_create_iterator_beyond_size l index m hidx hgt
      rw [h2] at hcreate
      simp at hcreate

theorem linked_list_iterate_false_unchanged (iter : Option iterator)
    (h : (linked_list_iterate iter).1 = false) : (linked_list_iterate iter).2 = iter := by
  cases iter with
  | none => rfl
  | some it =>
    obtain ⟨ll, cur, idx, dat⟩ := it
    cases cur with
    | NULL => rfl
    | node d c =>
      cases c with
      | NULL => rfl
      | node d1 next1 => simp [linked_list_iterate] at h

theorem iterate_calls_keeps_consistent (xs : List Nat) (hlen : xs.length ≤ SIZE_MAX) :
    ∀ (k : Nat) (it : iterator), it.consistent xs →
      ∃ it2, (iterate_calls k (some it)).2 = some it2 ∧ it2.ll = it.ll ∧
        it2.consistent xs := by
  intro k
  induction k with
  | zero => intro it hc; exact ⟨it, rfl, rfl, hc⟩
  | succ k ih =>
    intro it hc
    by_cases hnext : it.current_index + 1 < xs.length
    · obtain ⟨it1, h1, hll1, _, hc1⟩ :=
        (linked_list_iterate_consistent it xs hlen hc).1 hnext
      obtain ⟨it2, h2, hll2, hc2⟩ := ih it1 hc1
      exact ⟨it2, by simp [iterate_calls, h1, h2], by rw [hll2, hll1], hc2⟩
    · have h1 := (linked_list_iterate_consistent it xs hlen hc).2 hnext
      obtain ⟨it2, h2, hll2, hc2⟩ := ih it hc
      exact ⟨it2, by simp [iterate_calls, h1, h2], hll2, hc2⟩

theorem iterator_traverse_consistent (xs : List Nat) (hlen : xs.length ≤ SIZE_MAX) :
    ∀ (r : Nat) (it : iterator), it.consistent xs → xs.length - it.current_index = r →
      ∀ fuel, r ≤ fuel →
        iterator_traverse fuel (some it) =
          (List.range' it.current_index r).zip (xs.drop it.current_index) := by
  intro r
  induction r with
  | zero =>
    intro it hc hr
    have := hc.1
    omega
  | succ r ih =>
    intro it hc hr fuel hfuel
    obtain ⟨f, rfl⟩ : ∃ f, fuel = f + 1 := ⟨fuel - 1, by omega⟩
    have hlt := hc.1
    have hdrop : xs.drop it.current_index = it.data :: xs.drop (it.current_index + 1) := by
      have hget := hc.2.2
      rw [List.getElem?_eq_getElem hlt] at hget
      rw [List.drop_eq_getElem_cons hlt, Option.some.inj hget]
    rw [hdrop, List.range'_succ, List.zip_cons_cons]
    by_cases hnext : it.current_index + 1 < xs.length
    · obtain ⟨it1, h1, _, hidx1, hc1⟩ :=
        (linked_list_iterate_consistent it xs hlen hc).1 hnext
      have hrec := ih it1 hc1 (by omega) f (by omega)
      rw [hidx1] at hrec
      simp [iterator_traverse, h1, hrec]
    · have h1 := (linked_list_iterate_consistent it xs hlen hc).2 hnext
      have hr0 : r = 0 := by omega
      subst hr0
      simp [iterator_traverse, h1]

theorem session.run_insert_end (vs : List Nat) :
    ∀ (s : session) (l : linked_list), s.ll = some l →
      (s.run (vs.map mutation.insert_end)).inserted = s.inserted + vs.length →
      ∃ l2, (s.run (vs.map mutation.insert_end)).ll = some l2 ∧
        l2.values = l.values ++ vs := by
  induction vs with
  | nil => intro s l hll _; exact ⟨l, by simpa [session.run] using hll, by simp⟩
  | cons v vs ih =>
    intro s l hll hins
    have hrun : s.run ((v :: vs).map mutation.insert_end) =
        (s.step (.insert_end v)).run (vs.map mutation.insert_end) := by
      simp [session.run]
    rw [hrun] at hins ⊢
    have hle := session.run_inserted_le (vs.map mutation.insert_end)
      (s.step (.insert_end v))
    simp only [List.length_map, List.length_cons] at hle hins
    cases hb : (malloc_fptr s.mem).1 with
    | false =>
      have h1 : (s.step (.insert_end v)).inserted = s.inserted := by
        rcases hm : malloc_fptr s.mem with ⟨b, m1⟩
        rw [hm] at hb
        simp only at hb
        subst hb
        simp [session.step, mutation.run, hll, linked_list_insert_end, hm]
      omega
    | true =>
      obtain ⟨c, hend, hcv⟩ := linked_list_insert_end_values l v s.mem hb
      have h1 : (s.step (.insert_end v)).inserted = s.inserted + 1 := by
        simp [session.step, mutation.run, hll, hend, mutation.is_insert]
      have h2 : (s.step (.insert_end v)).ll = some ⟨c⟩ := by
        simp [session.step, mutation.run, hll, hend, mutation.is_insert]
      obtain ⟨l2, hl2, hv⟩ := ih (s.step (.insert_end v)) ⟨c⟩ h2 (by omega)
      exact ⟨l2, hl2, by rw [hv]; simp [linked_list.values, hcv]⟩

/-! ## Positional insertion -/

/-- C1: for a list with value sequence `xs`, an index `i ≤ length xs` and a
value `v`, when the allocation succeeds `linked_list_insert` returns `true` and
the value sequence becomes the first `i` elements of `xs`, then `v`, then the
remaining elements of `xs` in their original order. -/
theorem linked_list_insert_splices (l : linked_list) (index data : Nat) (m : allocator)
    (hidx : index ≤ SIZE_MAX) (hle : index ≤ l.values.length)
    (halloc : (malloc_fptr m).1 = true) :
    (linked_list_insert (some l) index data m).ret = true ∧
      (linked_list_insert (some l) index data m).obj.map linked_list.values =
        some (l.values.take index ++ data :: l.values.drop index) := by
  rcases hm : malloc_fptr m with ⟨b, m1⟩
  rw [hm] at halloc
  simp only at halloc
  subst halloc
  by_cases h0 : index = 0
  · subst h0
    simp [linked_list_insert, hm, linked_list.values]
  · obtain ⟨c2, hc2, hv⟩ :=
      linked_list_insert_loop_some index data hidx l.head 0 (index - 1) (by omega)
        (by simp only [linked_list.values] at hle; omega)
    have hk : index - 1 + 1 = index := by omega
    rw [hk] at hv
    simp [linked_list_insert, hm, h0, hc2, linked_list.values, hv]

/-- Witness for C1: inserting 3 at index 2 of the list 1, 2, 4 gives 1, 2, 3, 4. -/
theorem linked_list_insert_splices_witness :
    (linked_list_insert (some ⟨.node 1 (.node 2 (.node 4 .NULL))⟩) 2 3 ⟨[], 0, 0⟩).ret = true ∧
      (linked_list_insert (some ⟨.node 1 (.node 2 (.node 4 .NULL))⟩) 2 3
          ⟨[], 0, 0⟩).obj.map linked_list.values = some [1, 2, 3, 4] :=
  linked_list_insert_splices ⟨.node 1 (.node 2 (.node 4 .NULL))⟩ 2 3 ⟨[], 0, 0⟩
    (by decide) (by decide) (by decide)

/-! ## Iterator creation at the end of the chain -/

/-- C2 (divergence): on the one-node list holding 7, whose size is 1,
`linked_list_create_iterator` at index 1 with a successful allocation does not
return "no iterator": the walk leaves `head` null with `count == index`, and
reading `head->data` is a null dereference. -/
theorem linked_list_create_iterator_at_size_faults :
    linked_list_size (some ⟨.node 7 .NULL⟩) = 1 ∧
      linked_list_create_iterator (some ⟨.node 7 .NULL⟩) 1 ⟨[], 0, 0⟩ =
        .error fault.null_dereference :=
  ⟨by decide, rfl⟩

/-! ## Positional removal -/

/-- C3: for a list with value sequence `xs` and an index `i < length xs`,
`linked_list_remove` returns `true` and the value sequence becomes `xs` with
exactly the element at position `i` deleted, the others kept in order. -/
theorem linked_list_remove_deletes (l : linked_list) (index : Nat) (m : allocator)
    (hidx : index ≤ SIZE_MAX) (hlt : index < l.values.length) :
    (linked_list_remove (some l) index m).ret = true ∧
      (linked_list_remove (some l) index m).obj.map linked_list.values =
        some (l.values.eraseIdx index) := by
  obtain ⟨head⟩ := l
  cases head with
  | NULL => simp [linked_list.values] at hlt
  | node d next =>
    by_cases h0 : index = 0
    · subst h0
      simp [linked_list_remove, linked_list.values]
    · obtain ⟨c2, hc2, hv⟩ :=
        linked_list_remove_loop_some index hidx (.node d next) 0 (index - 1) (by omega)
          (by simp only [linked_list.values] at hlt; omega)
      have hk : index - 1 + 1 = index := by omega
      rw [hk] at hv
      simp [linked_list_remove, h0, hc2, linked_list.values, hv]

/-- Witness for C3: removing index 1 of the list 1, 2, 4 leaves 1, 4. -/
theorem linked_list_remove_deletes_witness :
    (linked_list_remove (some ⟨.node 1 (.node 2 (.node 4 .NULL))⟩) 1 ⟨[], 0, 0⟩).ret = true ∧
      (linked_list_remove (some ⟨.node 1 (.node 2 (.node 4 .NULL))⟩) 1
          ⟨[], 0, 0⟩).obj.map linked_list.values = some [1, 4] :=
  linked_list_remove_deletes ⟨.node 1 (.node 2 (.node 4 .NULL))⟩ 1 ⟨[], 0, 0⟩
    (by decide) (by decide)

/-- C10: for a list and an index `≥ size(list)` (so every index on an empty
list), `linked_list_remove` returns `false`, the list is exactly what it was
before the call, and nothing is released. -/
theorem linked_list_remove_out_of_bounds (l : linked_list) (index : Nat) (m : allocator)
    (hlen : l.values.length ≤ SIZE_MAX) (hidx : index ≤ SIZE_MAX)
    (hge : linked_list_size (some l) ≤ index) :
    (linked_list_remove (some l) index m).ret = false ∧
      (linked_list_remove (some l) index m).obj = some l ∧
      (linked_list_remove (some l) index m).mem = m := by
  rw [linked_list_size_eq l hlen] at hge
  obtain ⟨head⟩ := l
  cases head with
  | NULL => simp [linked_list_remove]
  | node d next =>
    have h0 : index ≠ 0 := by
      simp only [linked_list.values, node_ptr.values_node, List.length_cons] at hge
      omega
    have hnone :=
      linked_list_remove_loop_none index hidx (.node d next) 0 (index - 1) (by omega)
        (by simp only [linked_list.values] at hge; omega)
    simp [linked_list_remove, h0, hnone]

/-- Witness for C10: removing index 3 of the three-node list 1, 2, 4 fails and
leaves the list as it was. -/
theorem linked_list_remove_out_of_bounds_witness :
    (linked_list_remove (some ⟨.node 1 (.node 2 (.node 4 .NULL))⟩) 3 ⟨[], 0, 0⟩).ret = false ∧
      (linked_list_remove (some ⟨.node 1 (.node 2 (.node 4 .NULL))⟩) 3 ⟨[], 0, 0⟩).obj =
        some ⟨.node 1 (.node 2 (.node 4 .NULL))⟩ ∧
      (linked_list_remove (some ⟨.node 1 (.node 2 (.node 4 .NULL))⟩) 3 ⟨[], 0, 0⟩).mem =
        ⟨[], 0, 0⟩ :=
  linked_list_remove_out_of_bounds ⟨.node 1 (.node 2 (.node 4 .NULL))⟩ 3 ⟨[], 0, 0⟩
    (by decide) (by decide) (by decide)

/-! ## Search -/

/-- C4: on a list that contains `v`, `linked_list_find` returns the lowest
index holding `v`: the element at the returned index equals `v` and no element
at a smaller index does. -/
theorem linked_list_find_first_occurrence (l : linked_list) (data : Nat)
    (hlen : l.values.length ≤ SIZE_MAX) (hmem : data ∈ l.values) :
    l.values[linked_list_find (some l) data]? = some data ∧
      ∀ j, j < linked_list_find (some l) data → l.values[j]? ≠ some data := by
  obtain ⟨j, hj, hat, hbefore⟩ :=
    linked_list_find_loop_first data l.head 0
      (by simp only [linked_list.values] at hlen; omega) hmem
  have hfind : linked_list_find (some l) data = j := by
    simp [linked_list_find, hj]
  rw [hfind]
  exact ⟨hat, hbefore⟩

/-- Witness for C4: in the list 1, 6, 3, 6 the value 6 is found at index 1. -/
theorem linked_list_find_first_occurrence_witness :
    (linked_list.values ⟨.node 1 (.node 6 (.node 3 (.node 6 .NULL)))⟩)[
        linked_list_find (some ⟨.node 1 (.node 6 (.node 3 (.node 6 .NULL)))⟩) 6]? = some 6 ∧
      ∀ j, j < linked_list_find (some ⟨.node 1 (.node 6 (.node 3 (.node 6 .NULL)))⟩) 6 →
        (linked_list.values ⟨.node 1 (.node 6 (.node 3 (.node 6 .NULL)))⟩)[j]? ≠ some 6 :=
  linked_list_find_first_occurrence ⟨.node 1 (.node 6 (.node 3 (.node 6 .NULL)))⟩ 6
    (by decide) (by decide)

/-! ## Positional insertion at the edges and beyond -/

/-- C7: for a list with value sequence `xs` and a value `v`, with the
allocation succeeding, `linked_list_insert` at index `size(list)` returns
`true` and leaves exactly what `linked_list_insert_end` leaves on the same
starting list: the old sequence followed by `v`. -/
theorem linked_list_insert_at_size_is_insert_end (l : linked_list) (data : Nat)
    (m : allocator) (hlen : l.values.length ≤ SIZE_MAX)
    (halloc : (malloc_fptr m).1 = true) :
    (linked_list_insert (some l) (linked_list_size (some l)) data m).ret = true ∧
      linked_list_insert (some l) (linked_list_size (some l)) data m =
        linked_list_insert_end (some l) data m ∧
      (linked_list_insert (some l) (linked_list_size (some l)) data m).obj.map
        linked_list.values = some (l.values ++ [data]) := by
  obtain ⟨c, hend, hcv⟩ := linked_list_insert_end_values l data m halloc
  rw [hend, linked_list_size_eq l hlen]
  have hins : linked_list_insert (some l) l.values.length data m =
      { ret := true, obj := some { head := c }, mem := (malloc_fptr m).2 } := by
    rcases hm : malloc_fptr m with ⟨b, m1⟩
    rw [hm] at halloc
    simp only at halloc
    subst halloc
    by_cases h0 : l.values.length = 0
    · have hnil : l.values = [] := List.length_eq_zero.mp h0
      have hc : c = .node data l.head := by
        apply node_ptr.values_injective
        rw [hcv, hnil]
        simp only [linked_list.values] at hnil
        simp [hnil]
      simp [linked_list_insert, hm, h0, hc]
    · obtain ⟨c2, hc2, hv⟩ :=
        linked_list_insert_loop_some l.values.length data hlen l.head 0
          (l.values.length - 1) (by omega) (by simp only [linked_list.values] at h0 ⊢; omega)
      have hk : l.values.length - 1 + 1 = l.values.length := by omega
      rw [hk] at hv
      have hc : c2 = c := by
        apply node_ptr.values_injective
        rw [hv, hcv]
        simp [linked_list.values]
      simp [linked_list_insert, hm, h0, hc2, hc]
  rw [hins]
  exact ⟨rfl, rfl, by simp [linked_list.values, hcv]⟩

/-- Witness for C7: on the list 1, 2 both calls leave 1, 2, 9. -/
theorem linked_list_insert_at_size_is_insert_end_witness :
    (linked_list_insert (some ⟨.node 1 (.node 2 .NULL)⟩)
        (linked_list_size (some ⟨.node 1 (.node 2 .NULL)⟩)) 9 ⟨[], 0, 0⟩).ret = true ∧
      linked_list_insert (some ⟨.node 1 (.node 2 .NULL)⟩)
          (linked_list_size (some ⟨.node 1 (.node 2 .NULL)⟩)) 9 ⟨[], 0, 0⟩ =
        linked_list_insert_end (some ⟨.node 1 (.node 2 .NULL)⟩) 9 ⟨[], 0, 0⟩ ∧
      (linked_list_insert (some ⟨.node 1 (.node 2 .NULL)⟩)
          (linked_list_size (some ⟨.node 1 (.node 2 .NULL)⟩)) 9 ⟨[], 0, 0⟩).obj.map
        linked_list.values = some [1, 2, 9] :=
  linked_list_insert_at_size_is_insert_end ⟨.node 1 (.node 2 .NULL)⟩ 9 ⟨[], 0, 0⟩
    (by decide) (by decide)

/-- C8: for a list (the empty list included) and an index strictly greater
than `size(list)`, `linked_list_insert` returns `false` and the list is exactly
what it was before the call, whatever the allocation answered. -/
theorem linked_list_insert_out_of_bounds (l : linked_list) (index data : Nat)
    (m : allocator) (hlen : l.values.length ≤ SIZE_MAX) (hidx : index ≤ SIZE_MAX)
    (hgt : linked_list_size (some l) < index) :
    (linked_list_insert (some l) index data m).ret = false ∧
      (linked_list_insert (some l) index data m).obj = some l := by
  rw [linked_list_size_eq l hlen] at hgt
  have h0 : index ≠ 0 := by omega
  have hnone :=
    linked_list_insert_loop_none index data hidx l.head 0 (index - 1) (by omega)
      (by simp only [linked_list.values] at hgt; omega)
  rcases hm : malloc_fptr m with ⟨b, m1⟩
  cases b <;> simp [linked_list_insert, hm, h0, hnone]

/-- Witness for C8: inserting at index 1 of the empty list fails and leaves it
empty. -/
theorem linked_list_insert_out_of_bounds_witness :
    (linked_list_insert (some ⟨.NULL⟩) 1 0 ⟨[], 0, 0⟩).ret = false ∧
      (linked_list_insert (some ⟨.NULL⟩) 1 0 ⟨[], 0, 0⟩).obj = some ⟨.NULL⟩ :=
  linked_list_insert_out_of_bounds ⟨.NULL⟩ 1 0 ⟨[], 0, 0⟩ (by decide) (by decide) (by decide)

/-- C9: for every list state (no list, empty or not), value and provider
state, `linked_list_insert` at index 0 and `linked_list_insert_front` return
the same flag and leave the same list (and the same provider state). -/
theorem linked_list_insert_zero_is_insert_front (ll : Option linked_list) (data : Nat)
    (m : allocator) :
    linked_list_insert ll 0 data m = linked_list_insert_front ll data m := by
  cases ll with
  | none => rfl
  | some l =>
    rcases hm : malloc_fptr m with ⟨b, m1⟩
    cases b <;> simp [linked_list_insert, linked_list_insert_front, hm]

/-! ## Traversal with an iterator -/

/-- C5: on a list of length `n`, the iterator created at an index `i < n`
reports index `i`; for every `k ≤ n - 1 - i` the first `k` calls of
`linked_list_iterate` all return `true` and leave the iterator at index
`i + k` (so it visits `i, i+1, ..., n-1` in order); and the call made once it
is at index `n - 1` returns `false`. -/
theorem iterator_visits_indices_in_order (l : linked_list) (index : Nat) (m : allocator)
    (hlen : l.values.length ≤ SIZE_MAX) (hlt : index < l.values.length)
    (halloc : (malloc_fptr m).1 = true) :
    ∃ it m1, linked_list_create_iterator (some l) index m = .ok (some it, m1) ∧
      it.current_index = index ∧
      (∀ k, k ≤ l.values.length - 1 - index →
        (iterate_calls k (some it)).1 = List.replicate k true ∧
          (iterate_calls k (some it)).2.map iterator.current_index = some (index + k)) ∧
      (iterate_calls (l.values.length - 1 - index) (some it)).2.map iterator.current_index =
        some (l.values.length - 1) ∧
      (linked_list_iterate (iterate_calls (l.values.length - 1 - index) (some it)).2).1 =
        false := by
  obtain ⟨it, hcreate, _, hidx, hc⟩ :=
    linked_list_create_iterator_ok l index m (by omega) hlt halloc
  have hcalls := iterate_calls_consistent l.values hlen
  refine ⟨it, (malloc_fptr m).2, hcreate, hidx, ?_, ?_, ?_⟩
  · intro k hk
    obtain ⟨hflags, it2, h2, _, hidx2, _⟩ := hcalls k it hc (by omega)
    exact ⟨hflags, by simp [h2, hidx2, hidx]⟩
  · obtain ⟨_, it2, h2, _, hidx2, _⟩ :=
      hcalls (l.values.length - 1 - index) it hc (by omega)
    simp only [h2, Option.map_some', hidx2, hidx, Option.some.injEq]
    omega
  · obtain ⟨_, it2, h2, _, hidx2, hc2⟩ :=
      hcalls (l.values.length - 1 - index) it hc (by omega)
    rw [h2, (linked_list_iterate_consistent it2 l.values hlen hc2).2 (by omega)]

/-- Witness for C5: the iterator created at index 1 of the list 5, 6, 7. -/
theorem iterator_visits_indices_in_order_witness :
    ∃ it m1, linked_list_create_iterator (some ⟨.node 5 (.node 6 (.node 7 .NULL))⟩) 1
        ⟨[], 0, 0⟩ = .ok (some it, m1) ∧
      it.current_index = 1 ∧
      (∀ k, k ≤ (linked_list.values ⟨.node 5 (.node 6 (.node 7 .NULL))⟩).length - 1 - 1 →
        (iterate_calls k (some it)).1 = List.replicate k true ∧
          (iterate_calls k (some it)).2.map iterator.current_index = some (1 + k)) ∧
      (iterate_calls ((linked_list.values ⟨.node 5 (.node 6 (.node 7 .NULL))⟩).length - 1 - 1)
          (some it)).2.map iterator.current_index =
        some ((linked_list.values ⟨.node 5 (.node 6 (.node 7 .NULL))⟩).length - 1) ∧
      (linked_list_iterate
          (iterate_calls ((linked_list.values ⟨.node 5 (.node 6 (.node 7 .NULL))⟩).length - 1 - 1)
            (some it)).2).1 = false :=
  iterator_visits_indices_in_order ⟨.node 5 (.node 6 (.node 7 .NULL))⟩ 1 ⟨[], 0, 0⟩
    (by decide) (by decide) (by decide)

/-! ## Size after a sequence of calls -/

/-- C6: a freshly created list has size 0, and after any finite sequence of
`linked_list_insert_end`, `linked_list_insert_front`, `linked_list_insert` and
`linked_list_remove` calls on it `linked_list_size` equals the number of
insert calls that returned `true` minus the number of remove calls that
returned `true`; a call that returns `false` leaves the size as it was. -/
theorem linked_list_size_counts_successful_calls (m0 m1 : allocator) (l : linked_list)
    (cs : List mutation) (hcreate : linked_list_create m0 = (some l, m1))
    (hcalls : cs.length ≤ SIZE_MAX) :
    linked_list_size (some l) = 0 ∧
      (session.run ⟨some l, m1, 0, 0⟩ cs).removed ≤
        (session.run ⟨some l, m1, 0, 0⟩ cs).inserted ∧
      linked_list_size (session.run ⟨some l, m1, 0, 0⟩ cs).ll =
        (session.run ⟨some l, m1, 0, 0⟩ cs).inserted -
          (session.run ⟨some l, m1, 0, 0⟩ cs).removed ∧
      ∀ (c : mutation) (ll : Option linked_list) (m : allocator),
        (c.run ll m).ret = false →
          linked_list_size (c.run ll m).obj = linked_list_size ll := by
  have hl : l = ⟨.NULL⟩ := by
    rcases hm : malloc_fptr m0 with ⟨b, m2⟩
    cases b <;> simp [linked_list_create, hm] at hcreate
    exact hcreate.1.symm
  subst hl
  obtain ⟨l2, hll2, hinv2, hle2⟩ :=
    session.run_counts cs ⟨some ⟨.NULL⟩, m1, 0, 0⟩ ⟨.NULL⟩ rfl (by simp [linked_list.values])
  simp only [Nat.zero_add] at hle2
  refine ⟨by simp [linked_list_size, linked_list_size_loop], by omega, ?_, ?_⟩
  · rw [hll2, linked_list_size_eq l2 (by omega)]
    omega
  · intro c ll m hret
    cases ll with
    | none =>
      cases c <;>
        simp [mutation.run, linked_list_insert_end, linked_list_insert_front,
          linked_list_insert, linked_list_remove]
    | some l3 =>
      obtain ⟨l4, hobj, hfalse, _, _⟩ := mutation.run_effect c l3 m
      rw [hobj, hfalse hret]

/-- Witness for C6: on a fresh list, an end insert, a front insert, a rejected
insert at index 5, a remove at index 0 and a rejected remove at index 7 leave
size 1 = 2 - 1. -/
theorem linked_list_size_counts_successful_calls_witness :
    linked_list_size (some ⟨.NULL⟩) = 0 ∧
      (session.run ⟨some ⟨.NULL⟩, ⟨[], 1, 0⟩, 0, 0⟩
        [.insert_end 3, .insert_front 4, .insert 5 6, .remove 0, .remove 7]).removed ≤
        (session.run ⟨some ⟨.NULL⟩, ⟨[], 1, 0⟩, 0, 0⟩
          [.insert_end 3, .insert_front 4, .insert 5 6, .remove 0, .remove 7]).inserted ∧
      linked_list_size (session.run ⟨some ⟨.NULL⟩, ⟨[], 1, 0⟩, 0, 0⟩
          [.insert_end 3, .insert_front 4, .insert 5 6, .remove 0, .remove 7]).ll =
        (session.run ⟨some ⟨.NULL⟩, ⟨[], 1, 0⟩, 0, 0⟩
          [.insert_end 3, .insert_front 4, .insert 5 6, .remove 0, .remove 7]).inserted -
          (session.run ⟨some ⟨.NULL⟩, ⟨[], 1, 0⟩, 0, 0⟩
            [.insert_end 3, .insert_front 4, .insert 5 6, .remove 0, .remove 7]).removed ∧
      ∀ (c : mutation) (ll : Option linked_list) (m : allocator),
        (c.run ll m).ret = false →
          linked_list_size (c.run ll m).obj = linked_list_size ll :=
  linked_list_size_counts_successful_calls ⟨[], 0, 0⟩ ⟨[], 1, 0⟩ ⟨.NULL⟩
    [.insert_end 3, .insert_front 4, .insert 5 6, .remove 0, .remove 7] (by decide) (by decide)

/-! ## Search for an absent value -/

/-- C13: on a non-null list whose node count fits in `size_t` (in particular
one with fewer than `SIZE_MAX` elements), `linked_list_find` returns the
sentinel `SIZE_MAX` if and only if no element equals `v`; on the empty list it
returns the sentinel for every `v`. -/
theorem linked_list_find_sentinel_iff_absent (l : linked_list) (data : Nat)
    (hlen : l.values.length ≤ SIZE_MAX) :
    (linked_list_find (some l) data = SIZE_MAX ↔ data ∉ l.values) ∧
      ∀ v, linked_list_find (some ⟨.NULL⟩) v = SIZE_MAX := by
  refine ⟨⟨?_, ?_⟩, fun v => rfl⟩
  · intro hfind hmem
    obtain ⟨j, hj, hat, _⟩ :=
      linked_list_find_loop_first data l.head 0
        (by simp only [linked_list.values] at hlen; omega) hmem
    have hjlt : j < l.head.values.length := by
      rcases Nat.lt_or_ge j l.head.values.length with h | h
      · exact h
      · rw [List.getElem?_eq_none h] at hat
        simp at hat
    simp only [linked_list_find, hj, Nat.zero_add] at hfind
    simp only [linked_list.values] at hlen
    omega
  · intro hmem
    exact linked_list_find_loop_absent data l.head 0 hmem

/-- Witness for C13: 11 is not in the list 1, 2, 3 and 2 is. -/
theorem linked_list_find_sentinel_iff_absent_witness :
    (linked_list_find (some ⟨.node 1 (.node 2 (.node 3 .NULL))⟩) 11 = SIZE_MAX ↔
        11 ∉ linked_list.values ⟨.node 1 (.node 2 (.node 3 .NULL))⟩) ∧
      ∀ v, linked_list_find (some ⟨.NULL⟩) v = SIZE_MAX :=
  linked_list_find_sentinel_iff_absent ⟨.node 1 (.node 2 (.node 3 .NULL))⟩ 11 (by decide)

/-! ## Failure reporting -/

/-- C15: when the registered allocator returns no storage, `linked_list_create`
returns no list, and `linked_list_insert_end`, `linked_list_insert_front` and
`linked_list_insert` (at any index) return `false` and leave the list, hence
its value sequence and its size, exactly as before the call. -/
theorem allocation_failure_is_clean (m : allocator) (hfail : (malloc_fptr m).1 = false) :
    (linked_list_create m).1 = none ∧
      ∀ (l : linked_list) (index data : Nat),
        ((linked_list_insert_end (some l) data m).ret = false ∧
          (linked_list_insert_end (some l) data m).obj = some l) ∧
        ((linked_list_insert_front (some l) data m).ret = false ∧
          (linked_list_insert_front (some l) data m).obj = some l) ∧
        ((linked_list_insert (some l) index data m).ret = false ∧
          (linked_list_insert (some l) index data m).obj = some l) := by
  rcases hm : malloc_fptr m with ⟨b, m1⟩
  rw [hm] at hfail
  simp only at hfail
  subst hfail
  refine ⟨by simp [linked_list_create, hm], fun l index data => ?_⟩
  simp [linked_list_insert_end, linked_list_insert_front, linked_list_insert, hm]

/-- Witness for C15: a provider whose next answer is "no storage". -/
theorem allocation_failure_is_clean_witness :
    (linked_list_create ⟨[false], 0, 0⟩).1 = none ∧
      ∀ (l : linked_list) (index data : Nat),
        ((linked_list_insert_end (some l) data ⟨[false], 0, 0⟩).ret = false ∧
          (linked_list_insert_end (some l) data ⟨[false], 0, 0⟩).obj = some l) ∧
        ((linked_list_insert_front (some l) data ⟨[false], 0, 0⟩).ret = false ∧
          (linked_list_insert_front (some l) data ⟨[false], 0, 0⟩).obj = some l) ∧
        ((linked_list_insert (some l) index data ⟨[false], 0, 0⟩).ret = false ∧
          (linked_list_insert (some l) index data ⟨[false], 0, 0⟩).obj = some l) :=
  allocation_failure_is_clean ⟨[false], 0, 0⟩ (by decide)

/-- C16: every operation given "no list" or "no iterator" reports failure,
whatever its other arguments: the boolean operations return `false`,
`linked_list_size` and `linked_list_find` return `SIZE_MAX`, and
`linked_list_create_iterator` returns no iterator. -/
theorem null_handles_are_rejected (index data : Nat) (m : allocator) :
    (linked_list_delete none m).ret = false ∧
      (linked_list_insert_front none data m).ret = false ∧
      (linked_list_insert_end none data m).ret = false ∧
      (linked_list_insert none index data m).ret = false ∧
      (linked_list_remove none index m).ret = false ∧
      linked_list_size none = SIZE_MAX ∧
      linked_list_find none data = SIZE_MAX ∧
      linked_list_create_iterator none index m = .ok (none, m) ∧
      (linked_list_delete_iterator none m).ret = false ∧
      (linked_list_iterate none).1 = false :=
  ⟨rfl, rfl, rfl, rfl, rfl, rfl, rfl, rfl, rfl, rfl⟩

/-! ## Allocator binding -/

/-- C17: `linked_list_register_malloc` and `linked_list_register_free` return
`false` on a null function and leave both slots as they were; on a non-null
function they return `true`, store it in their own slot and leave the other
slot unchanged. -/
theorem register_functions_frame (b : allocator_binding) (f : Nat) :
    linked_list_register_malloc b none = (false, b) ∧
      linked_list_register_free b none = (false, b) ∧
      linked_list_register_malloc b (some f) =
        (true, { malloc_slot := some f, free_slot := b.free_slot }) ∧
      linked_list_register_free b (some f) =
        (true, { malloc_slot := b.malloc_slot, free_slot := some f }) :=
  ⟨rfl, rfl, rfl, rfl⟩

/-! ## Allocation balance of a rejected insertion -/

/-- C12: for a list with value sequence `xs` and a value `v`, with the
allocation succeeding, `linked_list_insert_front` returns `true` and the value
sequence becomes `v` followed by `xs`; consequently front-inserting the values
`vs` one after another into an empty list, every call returning `true`,
leaves them in reverse insertion order. -/
theorem linked_list_insert_front_prepends (l : linked_list) (data : Nat) (m : allocator)
    (halloc : (malloc_fptr m).1 = true) :
    (linked_list_insert_front (some l) data m).ret = true ∧
      (linked_list_insert_front (some l) data m).obj.map linked_list.values =
        some (data :: l.values) ∧
      ∀ (vs : List Nat) (m1 : allocator),
        (session.run ⟨some ⟨.NULL⟩, m1, 0, 0⟩ (vs.map mutation.insert_front)).inserted =
            vs.length →
          (session.run ⟨some ⟨.NULL⟩, m1, 0, 0⟩ (vs.map mutation.insert_front)).ll.map
            linked_list.values = some vs.reverse := by
  rcases hm : malloc_fptr m with ⟨b, m1⟩
  rw [hm] at halloc
  simp only at halloc
  subst halloc
  refine ⟨by simp [linked_list_insert_front, hm],
    by simp [linked_list_insert_front, hm, linked_list.values], ?_⟩
  intro vs m2 hins
  obtain ⟨l2, hl2, hv⟩ :=
    session.run_insert_front vs ⟨some ⟨.NULL⟩, m2, 0, 0⟩ ⟨.NULL⟩ rfl (by simpa using hins)
  rw [hl2, Option.map_some', hv]
  simp [linked_list.values]

/-- Witness for C12: pushing 9 in front of the list 1, 2. -/
theorem linked_list_insert_front_prepends_witness :
    (linked_list_insert_front (some ⟨.node 1 (.node 2 .NULL)⟩) 9 ⟨[], 0, 0⟩).ret = true ∧
      (linked_list_insert_front (some ⟨.node 1 (.node 2 .NULL)⟩) 9 ⟨[], 0, 0⟩).obj.map
        linked_list.values = some (9 :: linked_list.values ⟨.node 1 (.node 2 .NULL)⟩) ∧
      ∀ (vs : List Nat) (m1 : allocator),
        (session.run ⟨some ⟨.NULL⟩, m1, 0, 0⟩ (vs.map mutation.insert_front)).inserted =
            vs.length →
          (session.run ⟨some ⟨.NULL⟩, m1, 0, 0⟩ (vs.map mutation.insert_front)).ll.map
            linked_list.values = some vs.reverse :=
  linked_list_insert_front_prepends ⟨.node 1 (.node 2 .NULL)⟩ 9 ⟨[], 0, 0⟩ (by decide)

/-! ## What a new iterator captures -/

/-- C14: for a list with value sequence `xs` and an index `i < length xs`,
when the allocation succeeds `linked_list_create_iterator` returns an iterator
whose stored index is `i`, whose current node is the node reached from `head`
in `i` steps (a real node, followed by the rest of `xs`), whose cached value is
`xs[i]`, and whose list back-reference is the given list. -/
theorem linked_list_create_iterator_captures (l : linked_list) (index : Nat)
    (m : allocator) (hidx : index ≤ SIZE_MAX) (hlt : index < l.values.length)
    (halloc : (malloc_fptr m).1 = true) :
    ∃ it, linked_list_create_iterator (some l) index m = .ok (some it, (malloc_fptr m).2) ∧
      it.current_index = index ∧
      it.current_node = l.head.follow index ∧
      it.current_node ≠ .NULL ∧
      it.current_node.values = l.values.drop index ∧
      l.values[index]? = some it.data ∧
      it.ll = l := by
  obtain ⟨it, hcreate, hll, hindex, hc⟩ :=
    linked_list_create_iterator_ok l index m hidx hlt halloc
  obtain ⟨hpos, hnode, hdata⟩ := hc
  rw [hindex] at hnode hdata
  refine ⟨it, hcreate, hindex, ?_, ?_, hnode, hdata, hll⟩
  · apply node_ptr.values_injective
    rw [hnode, node_ptr.follow_values]
    rfl
  · intro hnull
    rw [hnull] at hnode
    have hl := congrArg List.length hnode
    simp only [node_ptr.values_NULL, List.length_nil, List.length_drop] at hl
    omega

/-- Witness for C14: the iterator created at index 1 of the list 5, 6, 7. -/
theorem linked_list_create_iterator_captures_witness :
    ∃ it, linked_list_create_iterator (some ⟨.node 5 (.node 6 (.node 7 .NULL))⟩) 1 ⟨[], 0, 0⟩ =
        .ok (some it, (malloc_fptr ⟨[], 0, 0⟩).2) ∧
      it.current_index = 1 ∧
      it.current_node = (linked_list.head ⟨.node 5 (.node 6 (.node 7 .NULL))⟩).follow 1 ∧
      it.current_node ≠ .NULL ∧
      it.current_node.values = (linked_list.values ⟨.node 5 (.node 6 (.node 7 .NULL))⟩).drop 1 ∧
      (linked_list.values ⟨.node 5 (.node 6 (.node 7 .NULL))⟩)[1]? = some it.data ∧
      it.ll = ⟨.node 5 (.node 6 (.node 7 .NULL))⟩ :=
  linked_list_create_iterator_captures ⟨.node 5 (.node 6 (.node 7 .NULL))⟩ 1 ⟨[], 0, 0⟩
    (by decide) (by decide) (by decide)

/-! ## Insertion followed by removal -/

/-- C19: for a list with value sequence `xs`, an index `i ≤ length xs` and a
value `v`, a successful `linked_list_insert(list, i, v)` followed by
`linked_list_remove(list, i)` returns `true` and leaves the list with value
sequence exactly `xs`. -/
theorem linked_list_remove_undoes_insert (l : linked_list) (index data : Nat)
    (m : allocator) (hidx : index ≤ SIZE_MAX) (hle : index ≤ l.values.length)
    (halloc : (malloc_fptr m).1 = true) :
    (linked_list_insert (some l) index data m).ret = true ∧
      (linked_list_remove (linked_list_insert (some l) index data m).obj index
        (linked_list_insert (some l) index data m).mem).ret = true ∧
      (linked_list_remove (linked_list_insert (some l) index data m).obj index
        (linked_list_insert (some l) index data m).mem).obj = some l ∧
      (linked_list_remove (linked_list_insert (some l) index data m).obj index
        (linked_list_insert (some l) index data m).mem).obj.map linked_list.values =
          some l.values := by
  obtain ⟨c2, hins, hv2⟩ := linked_list_insert_ok l index data m hidx hle halloc
  have hlt2 : index < (linked_list.values ⟨c2⟩).length := by
    have hlen2 := congrArg List.length hv2
    simp only [List.length_append, List.length_take, List.length_cons,
      List.length_drop] at hlen2
    simp only [linked_list.values]
    omega
  obtain ⟨c3, hrem, hv3⟩ := linked_list_remove_ok ⟨c2⟩ index (malloc_fptr m).2 hidx hlt2
  have hc3 : c3 = l.head := by
    apply node_ptr.values_injective
    rw [hv3]
    simp only [linked_list.values, hv2]
    exact eraseIdx_take_cons_drop l.values index data hle
  rw [hins]
  simp only
  rw [hrem]
  subst hc3
  exact ⟨trivial, rfl, rfl, rfl⟩

/-- Witness for C19: inserting 9 at index 1 of the list 1, 2 and removing
index 1 again. -/
theorem linked_list_remove_undoes_insert_witness :
    (linked_list_insert (some ⟨.node 1 (.node 2 .NULL)⟩) 1 9 ⟨[], 0, 0⟩).ret = true ∧
      (linked_list_remove (linked_list_insert (some ⟨.node 1 (.node 2 .NULL)⟩) 1 9
          ⟨[], 0, 0⟩).obj 1
        (linked_list_insert (some ⟨.node 1 (.node 2 .NULL)⟩) 1 9 ⟨[], 0, 0⟩).mem).ret = true ∧
      (linked_list_remove (linked_list_insert (some ⟨.node 1 (.node 2 .NULL)⟩) 1 9
          ⟨[], 0, 0⟩).obj 1
        (linked_list_insert (some ⟨.node 1 (.node 2 .NULL)⟩) 1 9 ⟨[], 0, 0⟩).mem).obj =
          some ⟨.node 1 (.node 2 .NULL)⟩ ∧
      (linked_list_remove (linked_list_insert (some ⟨.node 1 (.node 2 .NULL)⟩) 1 9
          ⟨[], 0, 0⟩).obj 1
        (linked_list_insert (some ⟨.node 1 (.node 2 .NULL)⟩) 1 9 ⟨[], 0, 0⟩).mem).obj.map
          linked_list.values = some (linked_list.values ⟨.node 1 (.node 2 .NULL)⟩) :=
  linked_list_remove_undoes_insert ⟨.node 1 (.node 2 .NULL)⟩ 1 9 ⟨[], 0, 0⟩
    (by decide) (by decide) (by decide)

/-! ## End insertion followed by a traversal -/

/-- C11: inserting the values `vs` in order with `linked_list_insert_end` into
a freshly created list (every call returning `true`) leaves the value sequence
`vs`, and an iterator created at index 0 and advanced until
`linked_list_iterate` returns `false` reads exactly the values of `vs` in
order, paired with the indices 0, 1, ..., `length vs - 1`; any fuel of at least
`length vs` readings gives this result. -/
theorem insert_end_then_iterate_round_trip (m0 m1 : allocator) (l : linked_list)
    (vs : List Nat) (s : session) (fuel : Nat)
    (hcreate : linked_list_create m0 = (some l, m1))
    (hrun : session.run ⟨some l, m1, 0, 0⟩ (vs.map mutation.insert_end) = s)
    (hins : s.inserted = vs.length)
    (halloc : (malloc_fptr s.mem).1 = true)
    (hlen : vs.length ≤ SIZE_MAX) (hfuel : vs.length ≤ fuel) :
    s.ll.map linked_list.values = some vs ∧
      ∃ iter m2, linked_list_create_iterator s.ll 0 s.mem = .ok (iter, m2) ∧
        iterator_traverse fuel iter = (List.range vs.length).zip vs := by
  have hl : l = ⟨.NULL⟩ := by
    rcases hm : malloc_fptr m0 with ⟨b, m2⟩
    cases b <;> simp [linked_list_create, hm] at hcreate
    exact hcreate.1.symm
  subst hl
  obtain ⟨l2, hl2, hv⟩ :=
    session.run_insert_end vs ⟨some ⟨.NULL⟩, m1, 0, 0⟩ ⟨.NULL⟩ rfl
      (by rw [hrun, hins]; simp)
  rw [hrun] at hl2
  have hvs : l2.values = vs := by simpa [linked_list.values] using hv
  refine ⟨by rw [hl2, Option.map_some', hvs], ?_⟩
  rw [hl2]
  cases vs with
  | nil =>
    have hhead : l2.head = .NULL :=
      node_ptr.values_injective _ _ (by simpa [linked_list.values] using hvs)
    refine ⟨none, s.mem, ?_, ?_⟩
    · obtain ⟨head⟩ := l2
      simp only at hhead
      subst hhead
      rfl
    · cases fuel <;> rfl
  | cons v vs =>
    obtain ⟨it, hit, _, hindex, hc⟩ :=
      linked_list_create_iterator_ok l2 0 s.mem (Nat.zero_le _)
        (by rw [hvs]; simp) halloc
    refine ⟨some it, (malloc_fptr s.mem).2, hit, ?_⟩
    rw [hvs] at hc
    have htr := iterator_traverse_consistent (v :: vs) hlen (v :: vs).length it hc
      (by rw [hindex]; rfl) fuel hfuel
    rw [hindex] at htr
    rw [htr, List.range_eq_range']
    simp

/-- Witness for C11: the test's values 1, 2, 3, 4 inserted at the end of a
fresh list and read back with indices 0, 1, 2, 3. -/
theorem insert_end_then_iterate_round_trip_witness :
    (session.ll ⟨some ⟨.node 1 (.node 2 (.node 3 (.node 4 .NULL)))⟩, ⟨[], 5, 0⟩, 4, 0⟩).map
        linked_list.values = some [1, 2, 3, 4] ∧
      ∃ iter m2, linked_list_create_iterator
          (session.ll ⟨some ⟨.node 1 (.node 2 (.node 3 (.node 4 .NULL)))⟩, ⟨[], 5, 0⟩, 4, 0⟩) 0
          (session.mem ⟨some ⟨.node 1 (.node 2 (.node 3 (.node 4 .NULL)))⟩, ⟨[], 5, 0⟩, 4, 0⟩) =
            .ok (iter, m2) ∧
        iterator_traverse 4 iter = (List.range [1, 2, 3, 4].length).zip [1, 2, 3, 4] :=
  insert_end_then_iterate_round_trip ⟨[], 0, 0⟩ ⟨[], 1, 0⟩ ⟨.NULL⟩ [1, 2, 3, 4]
    ⟨some ⟨.node 1 (.node 2 (.node 3 (.node 4 .NULL)))⟩, ⟨[], 5, 0⟩, 4, 0⟩ 4
    (by decide) (by decide) (by decide) (by decide) (by decide) (by decide)

/-! ## Iterator consistency -/

/-- C20: an iterator returned by a successful `linked_list_create_iterator`,
after any number of `linked_list_iterate` calls on the unmutated list with value
sequence `xs`, has a stored index `< length xs` and a cached value equal to
`xs` at the stored index; and a `linked_list_iterate` call that returns
`false` leaves the iterator (index, current node and cached value) unchanged. -/
theorem iterator_stays_consistent (l : linked_list) (index : Nat) (m m1 : allocator)
    (it : iterator) (k : Nat) (hlen : l.values.length ≤ SIZE_MAX)
    (hidx : index ≤ SIZE_MAX)
    (hcreate : linked_list_create_iterator (some l) index m = .ok (some it, m1)) :
    (∃ it2, (iterate_calls k (some it)).2 = some it2 ∧
        it2.current_index < l.values.length ∧
        l.values[it2.current_index]? = some it2.data ∧
        it2.current_node = l.head.follow it2.current_index) ∧
      ∀ iter : Option iterator,
        (linked_list_iterate iter).1 = false → (linked_list_iterate iter).2 = iter := by
  obtain ⟨_, _, hc⟩ := linked_list_create_iterator_some l index m m1 it hlen hidx hcreate
  obtain ⟨it2, h2, _, hc2⟩ := iterate_calls_keeps_consistent l.values hlen k it hc
  refine ⟨⟨it2, h2, hc2.1, hc2.2.2, ?_⟩, linked_list_iterate_false_unchanged⟩
  apply node_ptr.values_injective
  rw [hc2.2.1, node_ptr.follow_values]
  rfl

/-- Witness for C20: the iterator created at index 1 of the list 5, 6, 7,
advanced three times (the last call fails). -/
theorem iterator_stays_consistent_witness :
    (∃ it2, (iterate_calls 3 (some ⟨⟨.node 5 (.node 6 (.node 7 .NULL))⟩,
          .node 6 (.node 7 .NULL), 1, 6⟩)).2 = some it2 ∧
        it2.current_index < (linked_list.values ⟨.node 5 (.node 6 (.node 7 .NULL))⟩).length ∧
        (linked_list.values ⟨.node 5 (.node 6 (.node 7 .NULL))⟩)[it2.current_index]? =
          some it2.data ∧
        it2.current_node =
          (linked_list.head ⟨.node 5 (.node 6 (.node 7 .NULL))⟩).follow it2.current_index) ∧
      ∀ iter : Option iterator,
        (linked_list_iterate iter).1 = false → (linked_list_iterate iter).2 = iter :=
  iterator_stays_consistent ⟨.node 5 (.node 6 (.node 7 .NULL))⟩ 1 ⟨[], 0, 0⟩ ⟨[], 1, 0⟩
    ⟨⟨.node 5 (.node 6 (.node 7 .NULL))⟩, .node 6 (.node 7 .NULL), 1, 6⟩ 3
    (by decide) (by decide) rfl

end LinkedList
